import Mathlib

/-!
Shallow embedding of the health-dashboard repository's data model and the
operations its specification describes, together with proofs of the spec's
testable properties.

Two layers are embedded:

* the dashboard's own TypeScript code (`src/dashboard/src/lib/types.ts`,
  `src/dashboard/src/lib/sheets.ts`, `src/dashboard/src/app/api/data/route.ts`):
  the `avg` helper, the `fmtNum` / `fmtPct` formatters and the `/api/data`
  route's date-range filters, translated function by function;

* the Daily Record Reconciler (`reconcile`, `reconcileBatch`, `getRange`,
  derived fields): its implementation is the external backend process and is
  not among the reviewed files, so it is modelled from the spec's §3–§4
  (marked `Modelled from the spec:` on each definition).

JavaScript numbers are modelled as `ℚ` (the exact rational semantics of the
arithmetic the code performs; none of the claims depends on binary-float
artifacts), JS `null` as `Option.none`, and JS strings as `String` with
lexicographic comparison of their character lists, which is exactly what the
JS `<` / `<=` / `>=` operators do on the ASCII `YYYY-MM-DD` date keys used
here.
-/

namespace HealthDash

/-! ### String comparison

JS compares strings lexicographically by code unit; for the ASCII date keys
used by the dashboard this is lexicographic comparison of the character
lists. Defined structurally so that it evaluates by kernel reduction. -/

/-- Lexicographic strict comparison of character lists (JS `<` on strings). -/
def charListLt : List Char → List Char → Bool
  | [], [] => false
  | [], _ :: _ => true
  | _ :: _, [] => false
  | a :: as, b :: bs =>
    if a < b then true
    else if b < a then false
    else charListLt as bs

/-- JS `a < b` on strings. -/
def strLt (a b : String) : Bool := charListLt a.data b.data

/-- Reflexive lexicographic order `a ≤ b` on strings (`<` or equal). -/
def strLe (a b : String) : Bool := charListLt a.data b.data || a.data == b.data

/-- JS `a >= b` on strings, which ECMA defines as `¬(a < b)`. -/
def strGe (a b : String) : Bool := !(charListLt a.data b.data)

/-- JS `a <= b` on strings, which ECMA defines as `¬(b < a)`. -/
def strLeJS (a b : String) : Bool := !(charListLt b.data a.data)

/-! ### Data model of the dashboard (`src/dashboard/src/lib/types.ts`)

`DailyLog` is the row shape the dashboard reads from the "Daily Log" tab;
every numeric field is nullable (`Option ℚ`), the two derived booleans are
stored as strings, exactly as in the TypeScript interface. -/

structure DailyLog where
  Date : String
  Weight_kg : Option ℚ
  Trend_Weight_kg : Option ℚ
  Fat_Percent : Option ℚ
  Protein_g : Option ℚ
  Carbs_g : Option ℚ
  Fats_g : Option ℚ
  Calories : Option ℚ
  Expenditure : Option ℚ
  Steps : Option ℚ
  Total_Sleep_Hours : Option ℚ
  Sleep_Score : Option ℚ
  Deep_Sleep_Minutes : Option ℚ
  REM_Sleep_Minutes : Option ℚ
  Sleep_Efficiency : Option ℚ
  Readiness_Score : Option ℚ
  Temperature_Deviation : Option ℚ
  HRV_Balance : Option ℚ
  Resting_Heart_Rate : Option ℚ
  Activity_Score : Option ℚ
  Nutrition_Logged : String
  Data_Complete : String
  Nap_Minutes : Option ℚ
  deriving DecidableEq

/-- A blank `DailyLog` row: every numeric field null, booleans `FALSE`,
used to build concrete rows in examples (mirrors an empty sheet row passed
through `getDailyLogs`). -/
def mkLog (date : String) : DailyLog where
  Date := date
  Weight_kg := none
  Trend_Weight_kg := none
  Fat_Percent := none
  Protein_g := none
  Carbs_g := none
  Fats_g := none
  Calories := none
  Expenditure := none
  Steps := none
  Total_Sleep_Hours := none
  Sleep_Score := none
  Deep_Sleep_Minutes := none
  REM_Sleep_Minutes := none
  Sleep_Efficiency := none
  Readiness_Score := none
  Temperature_Deviation := none
  HRV_Balance := none
  Resting_Heart_Rate := none
  Activity_Score := none
  Nutrition_Logged := "FALSE"
  Data_Complete := "FALSE"
  Nap_Minutes := none

/-- The numeric (nullable) columns of `DailyLog`: the values `keyof DailyLog`
ranges over when `avg` is called on a numeric field. This is also the field
set of the reconciler's `DailyRecord` (spec §3), whose two source-owned
column groups partition it. -/
inductive NumField where
  | Weight_kg | Trend_Weight_kg | Fat_Percent | Protein_g | Carbs_g | Fats_g
  | Calories | Expenditure | Steps | Total_Sleep_Hours | Sleep_Score
  | Deep_Sleep_Minutes | REM_Sleep_Minutes | Sleep_Efficiency | Readiness_Score
  | Temperature_Deviation | HRV_Balance | Resting_Heart_Rate | Activity_Score
  | Nap_Minutes
  deriving DecidableEq

/-- Field projection `d[field]` for a numeric field. -/
def getNumField (d : DailyLog) : NumField → Option ℚ
  | .Weight_kg => d.Weight_kg
  | .Trend_Weight_kg => d.Trend_Weight_kg
  | .Fat_Percent => d.Fat_Percent
  | .Protein_g => d.Protein_g
  | .Carbs_g => d.Carbs_g
  | .Fats_g => d.Fats_g
  | .Calories => d.Calories
  | .Expenditure => d.Expenditure
  | .Steps => d.Steps
  | .Total_Sleep_Hours => d.Total_Sleep_Hours
  | .Sleep_Score => d.Sleep_Score
  | .Deep_Sleep_Minutes => d.Deep_Sleep_Minutes
  | .REM_Sleep_Minutes => d.REM_Sleep_Minutes
  | .Sleep_Efficiency => d.Sleep_Efficiency
  | .Readiness_Score => d.Readiness_Score
  | .Temperature_Deviation => d.Temperature_Deviation
  | .HRV_Balance => d.HRV_Balance
  | .Resting_Heart_Rate => d.Resting_Heart_Rate
  | .Activity_Score => d.Activity_Score
  | .Nap_Minutes => d.Nap_Minutes

/-- `WeeklySummary` row shape (types.ts); the `/api/data` filter reads only
`Week_Start` and `Week_End`. -/
structure WeeklySummary where
  Week_Start : String
  Week_End : String
  Week_Number : ℚ
  Avg_Weight_kg : Option ℚ
  Avg_Trend_Weight_kg : Option ℚ
  Avg_Protein_g : Option ℚ
  Avg_Carbs_g : Option ℚ
  Avg_Fats_g : Option ℚ
  Avg_Calories : Option ℚ
  Avg_Steps : Option ℚ
  Avg_Sleep_Hours : Option ℚ
  Avg_Sleep_Score : Option ℚ
  Avg_Deep_Sleep_Min : Option ℚ
  Avg_REM_Sleep_Min : Option ℚ
  Avg_Readiness_Score : Option ℚ
  Avg_HRV_Balance : Option ℚ
  Avg_Resting_HR : Option ℚ
  Avg_Activity_Score : Option ℚ
  Avg_Nap_Minutes : Option ℚ
  Days_Logged_Nutrition : ℚ
  Days_Logged_Total : ℚ
  Weight_Change_kg : Option ℚ
  Compliance_Pct : ℚ
  deriving DecidableEq

/-- A `WeeklySummary` with given week bounds and everything else blank,
used to build concrete rows in examples. -/
def mkWS (ws we : String) : WeeklySummary where
  Week_Start := ws
  Week_End := we
  Week_Number := 0
  Avg_Weight_kg := none
  Avg_Trend_Weight_kg := none
  Avg_Protein_g := none
  Avg_Carbs_g := none
  Avg_Fats_g := none
  Avg_Calories := none
  Avg_Steps := none
  Avg_Sleep_Hours := none
  Avg_Sleep_Score := none
  Avg_Deep_Sleep_Min := none
  Avg_REM_Sleep_Min := none
  Avg_Readiness_Score := none
  Avg_HRV_Balance := none
  Avg_Resting_HR := none
  Avg_Activity_Score := none
  Avg_Nap_Minutes := none
  Days_Logged_Nutrition := 0
  Days_Logged_Total := 0
  Weight_Change_kg := none
  Compliance_Pct := 0

/-! ### The `avg` helper (`types.ts` lines 110–117)

```ts
export function avg(logs, field, decimals = 0) {
  const vals = logs.map((d) => d[field]).filter((v) => v !== null && v !== 0);
  if (vals.length === 0) return null;
  const result = vals.reduce((a, b) => a + b, 0) / vals.length;
  return Number(result.toFixed(decimals));
}
```

`Number(result.toFixed(decimals))` rounds the exact quotient to `decimals`
decimal places. Per ECMA-262, `toFixed` removes the sign first and then picks
the integer `n` closest to `|x|·10^f`, the larger one on ties — i.e. it
rounds half away from zero. -/

/-- ECMA `Number(x.toFixed(d))` as an exact operation on rationals:
round `x` to `d` decimal places, ties away from zero. -/
def jsToFixedVal (d : ℕ) (x : ℚ) : ℚ :=
  (if x < 0 then (-1 : ℚ) else 1) * ((⌊|x| * 10 ^ d + 1 / 2⌋ : ℤ) : ℚ) / 10 ^ d

/-- The `avg` helper of `types.ts`: drop null and zero values of the chosen
field, return null if nothing remains, else the rounded arithmetic mean.
The JS default `decimals = 0` is passed explicitly by callers here. -/
def avg (logs : List DailyLog) (field : NumField) (decimals : ℕ) : Option ℚ :=
  let vals := ((logs.map (fun d => getNumField d field)).filterMap id).filter
    (fun v => decide (v ≠ 0))
  if vals.length = 0 then none
  else some (jsToFixedVal decimals (vals.foldl (· + ·) 0 / (vals.length : ℚ)))

/-- Spec-side definition, following the claim's words only: the exact
arithmetic mean of those values that are non-null and non-zero, null when no
such value exists. Used to compare `avg` against the claimed behaviour. -/
def meanSpec (vs : List (Option ℚ)) : Option ℚ :=
  let xs := (vs.filterMap id).filter (fun v => decide (v ≠ 0))
  if xs = [] then none
  else some (xs.foldr (· + ·) 0 / (xs.length : ℚ))

/-! ### The `/api/data` route (`src/dashboard/src/app/api/data/route.ts`)

```ts
const start = searchParams.get('start') || '2020-01-01';
const end = searchParams.get('end') || '2099-12-31';
const filteredLogs = dailyLogs.filter((d) => d.Date >= start && d.Date <= end);
const filteredSummaries = weeklySummaries.filter(
  (s) => s.Week_Start >= start || s.Week_End <= end);
```

On fetch failure the handler returns status 500 with empty lists and an
error message; on success, status 200 and the filtered lists. -/

/-- JS `x || default` on an optional query parameter: `null` and the empty
string are both falsy. -/
def jsOrDefault (o : Option String) (dflt : String) : String :=
  match o with
  | none => dflt
  | some s => if s = "" then dflt else s

/-- The daily-log filter of the GET handler (conjunctive, order-preserving). -/
def filterLogs (start end_ : String) (logs : List DailyLog) : List DailyLog :=
  logs.filter (fun d => strGe d.Date start && strLeJS d.Date end_)

/-- The weekly-summary filter of the GET handler (note the disjunction,
exactly as in the source). -/
def filterSummaries (start end_ : String) (sums : List WeeklySummary) :
    List WeeklySummary :=
  sums.filter (fun s => strGe s.Week_Start start || strLeJS s.Week_End end_)

/-- Shape of the GET handler's JSON response. -/
structure ApiResponse where
  status : ℕ
  dailyLogs : List DailyLog
  weeklySummaries : List WeeklySummary
  error : Option String
  deriving DecidableEq

/-- The GET handler of `/api/data`. The sheet fetch is the only fallible
step, passed in as an `Except`; filtering itself never throws. -/
def routeGET (qstart qend : Option String)
    (fetched : Except String (List DailyLog × List WeeklySummary)) :
    ApiResponse :=
  match fetched with
  | .error _ => ⟨500, [], [], some "Failed to fetch data"⟩
  | .ok (logs, sums) =>
    let start := jsOrDefault qstart "2020-01-01"
    let end_ := jsOrDefault qend "2099-12-31"
    ⟨200, filterLogs start end_ logs, filterSummaries start end_ sums, none⟩

/-- Is a list of dates sorted strictly ascending? -/
def datesStrictAsc : List String → Bool
  | [] => true
  | [_] => true
  | a :: b :: rest => strLt a b && datesStrictAsc (b :: rest)

/-! ### The Daily Record Reconciler

Modelled from the spec: the reconciler engine (spec §3–§4) is implemented by
the external backend process, which is not among the reviewed files; these
definitions follow the spec's behavioural contract word for word. -/

/-- Modelled from the spec: the two source-owned column groups of §3. -/
inductive SourceGroup where
  | wearable
  | nutrition
  deriving DecidableEq

/-- Modelled from the spec: which source group owns each field (§3 table).
Wearable: steps, sleep and readiness metrics, activity, naps; nutrition:
weight, body composition, macros, calories, expenditure. -/
def owner : NumField → SourceGroup
  | .Steps => .wearable
  | .Total_Sleep_Hours => .wearable
  | .Sleep_Score => .wearable
  | .Deep_Sleep_Minutes => .wearable
  | .REM_Sleep_Minutes => .wearable
  | .Sleep_Efficiency => .wearable
  | .Readiness_Score => .wearable
  | .Temperature_Deviation => .wearable
  | .HRV_Balance => .wearable
  | .Resting_Heart_Rate => .wearable
  | .Activity_Score => .wearable
  | .Nap_Minutes => .wearable
  | .Weight_kg => .nutrition
  | .Trend_Weight_kg => .nutrition
  | .Fat_Percent => .nutrition
  | .Protein_g => .nutrition
  | .Carbs_g => .nutrition
  | .Fats_g => .nutrition
  | .Calories => .nutrition
  | .Expenditure => .nutrition

/-- The wearable-group fields, as a list (for the `data_complete` check). -/
def wearableFieldList : List NumField :=
  [.Steps, .Total_Sleep_Hours, .Sleep_Score, .Deep_Sleep_Minutes,
   .REM_Sleep_Minutes, .Sleep_Efficiency, .Readiness_Score,
   .Temperature_Deviation, .HRV_Balance, .Resting_Heart_Rate,
   .Activity_Score, .Nap_Minutes]

/-- The numeric portion of a stored `DailyRecord`: each field nullable. -/
abbrev RecState := NumField → Option ℚ

/-- Modelled from the spec: a record created on first touch has every field
null (§4.1 step 1). -/
def emptyRec : RecState := fun _ => none

/-- Modelled from the spec: derived field `nutrition_logged` — true iff
stored `calories` is non-null (§3). -/
def nutritionLogged (r : RecState) : Bool := (r .Calories).isSome

/-- Modelled from the spec: derived field `data_complete` — true iff
`nutrition_logged` and at least one wearable-group field is non-null (§3). -/
def dataComplete (r : RecState) : Bool :=
  nutritionLogged r && wearableFieldList.any (fun f => (r f).isSome)

/-- The persisted store: one row per date ("find row by date, else append",
spec §9). The one-record-per-date invariant is `(st.map Prod.fst).Nodup`. -/
abbrev Store := List (String × RecState)

/-- Look up the record for a date. -/
def lookupRecord (st : Store) (d : String) : Option RecState :=
  (List.find? (fun p => p.1 == d) st).map Prod.snd

/-- Replace the record for a date, appending if no row exists. -/
def setRecord (st : Store) (d : String) (r : RecState) : Store :=
  match st with
  | [] => [(d, r)]
  | p :: rest => if p.1 == d then (d, r) :: rest else p :: setRecord rest d r

/-- The stored value of one field of one date (null when the record or the
field is absent). -/
def storedValue (st : Store) (d : String) (f : NumField) : Option ℚ :=
  match lookupRecord st d with
  | some r => r f
  | none => none

/-- Modelled from the spec: merge one incoming `(field, value)` pair —
a non-null value overwrites, a null value leaves the stored field unchanged
(§4.1 step 2). -/
def updField (r : RecState) (f : NumField) (v : Option ℚ) : RecState :=
  match v with
  | none => r
  | some x => fun f2 => if f2 = f then some x else r f2

/-- Modelled from the spec: merge all incoming pairs, in order (§4.1). -/
def applyFields (r : RecState) (fields : List (NumField × Option ℚ)) :
    RecState :=
  fields.foldl (fun acc fv => updField acc fv.1 fv.2) r

/-- The last non-null value written to `f` by a field mapping, if any.
Characterises `applyFields` pointwise. -/
def lastWrite : List (NumField × Option ℚ) → NumField → Option ℚ
  | [], _ => none
  | fv :: rest, f =>
    match lastWrite rest f with
    | some x => some x
    | none => if fv.1 = f then fv.2 else none

/-- Modelled from the spec: the reconciler's error taxonomy (§7) — the two
validation errors, rejected before any mutation. -/
inductive ReconcileError where
  | invalidDate (d : String)
  | invalidField (f : NumField)
  deriving DecidableEq

/-- Gregorian leap-year rule. -/
def isLeapYear (y : ℕ) : Bool :=
  (y % 4 == 0 && !(y % 100 == 0)) || y % 400 == 0

/-- Days in a month of the Gregorian calendar. -/
def daysInMonth (y m : ℕ) : ℕ :=
  if m = 2 then (if isLeapYear y then 29 else 28)
  else if m == 4 || m == 6 || m == 9 || m == 11 then 30
  else 31

/-- Is the character an ASCII digit? -/
def isDigitCh (c : Char) : Bool := decide ('0' ≤ c) && decide (c ≤ '9')

/-- Numeric value of an ASCII digit character. -/
def digitVal (c : Char) : ℕ := c.toNat - 48

/-- Modelled from the spec: "`date` must be a syntactically valid calendar
date" in `YYYY-MM-DD` form (§4.1, §2 "string key, YYYY-MM-DD"). -/
def validDate (s : String) : Bool :=
  match s.data with
  | [y1, y2, y3, y4, h1, m1, m2, h2, d1, d2] =>
    isDigitCh y1 && isDigitCh y2 && isDigitCh y3 && isDigitCh y4 &&
    h1 == '-' && h2 == '-' &&
    isDigitCh m1 && isDigitCh m2 && isDigitCh d1 && isDigitCh d2 &&
    (let y := 1000 * digitVal y1 + 100 * digitVal y2 + 10 * digitVal y3 +
      digitVal y4
     let m := 10 * digitVal m1 + digitVal m2
     let dd := 10 * digitVal d1 + digitVal d2
     decide (1 ≤ m) && decide (m ≤ 12) && decide (1 ≤ dd) &&
       decide (dd ≤ daysInMonth y m))
  | _ => false

/-- Modelled from the spec: `reconcile(date, sourceGroup, fields)` (§4.1) —
validate the date, reject any field outside the owning group, then look up
(or initialise) the record for the date, merge null-preservingly, and persist
it, touching no other date. Derived fields are pure functions of the stored
state and are recomputed at read time via `nutritionLogged`/`dataComplete`. -/
def reconcile (st : Store) (d : String) (g : SourceGroup)
    (fields : List (NumField × Option ℚ)) : Except ReconcileError Store :=
  if validDate d = false then .error (.invalidDate d)
  else
    match fields.find? (fun fv => decide (owner fv.1 ≠ g)) with
    | some fv => .error (.invalidField fv.1)
    | none =>
      let cur := (lookupRecord st d).getD emptyRec
      .ok (setRecord st d (applyFields cur fields))

/-- One entry of a `reconcileBatch` call. -/
structure BatchEntry where
  date : String
  group : SourceGroup
  fields : List (NumField × Option ℚ)

/-- Modelled from the spec: `reconcileBatch(entries)` — equivalent to calling
`reconcile` for each entry in order (§4.1). -/
def reconcileBatch (st : Store) : List BatchEntry → Except ReconcileError Store
  | [] => .ok st
  | e :: rest =>
    match reconcile st e.date e.group e.fields with
    | .error err => .error err
    | .ok st1 => reconcileBatch st1 rest

/-- Date order on store rows, for the range read. -/
def rowLe (p q : String × RecState) : Prop := strLe p.1 q.1 = true

instance : DecidableRel rowLe := fun p q =>
  inferInstanceAs (Decidable (strLe p.1 q.1 = true))

/-- Strict date order on store rows. -/
def rowLt (p q : String × RecState) : Prop := strLt p.1 q.1 = true

/-- Modelled from the spec: `getRange(startDate, endDate)` — all records with
`startDate ≤ date ≤ endDate`, sorted ascending by date; storage order need
not be sorted internally (§3, §4.1). -/
def getRange (st : Store) (a b : String) : List (String × RecState) :=
  List.insertionSort rowLe
    (st.filter (fun p => strLe a p.1 && strLe p.1 b))

/-! ### The formatters (`types.ts` lines 79–91)

`fmtNum` renders `toLocaleString('en-US', {minimumFractionDigits: d,
maximumFractionDigits: d})` (digit grouping with commas, exactly `d` fraction
digits, default rounding halfExpand = ties away from zero); `fmtPct` renders
`toFixed(1)` followed by `%`. Both return the em-dash placeholder for null. -/

/-- ASCII digit character for `n % 10`. -/
def digitCh (n : ℕ) : Char := Char.ofNat (48 + n % 10)

/-- Little-endian decimal digit characters of `n`, with explicit fuel so the
definition is structural and kernel-reducible. -/
def natCharsAux : ℕ → ℕ → List Char
  | 0, _ => []
  | fuel + 1, n => if n = 0 then [] else digitCh n :: natCharsAux fuel (n / 10)

/-- Little-endian decimal digit characters of `n` (`0` renders as `"0"`). -/
def natCharsLE (n : ℕ) : List Char :=
  if n = 0 then ['0'] else natCharsAux n n

/-- Insert `en-US` thousands separators into a little-endian digit list
(`i` counts digits already emitted). -/
def addCommasLE : List Char → ℕ → List Char
  | [], _ => []
  | c :: rest, i =>
    (if 0 < i ∧ i % 3 = 0 then [',', c] else [c]) ++ addCommasLE rest (i + 1)

/-- The integer `n` closest to `|x|·10^d` (ties away from zero), the common
core of `toFixed` and number formatting. -/
def scaledRound (d : ℕ) (x : ℚ) : ℕ := (⌊|x| * 10 ^ d + 1 / 2⌋).toNat

/-- Fraction-part characters: exactly `d` digits (left-padded with zeros),
preceded by the decimal point; empty when `d = 0`. -/
def fracChars (d frac : ℕ) : List Char :=
  if d = 0 then []
  else
    let ds := (natCharsLE frac).reverse
    '.' :: (List.replicate (d - ds.length) '0' ++ ds)

/-- `x.toLocaleString('en-US', {minimumFractionDigits: d,
maximumFractionDigits: d})` for a finite value. -/
def localeChars (x : ℚ) (d : ℕ) : List Char :=
  let mag := scaledRound d x
  let intChars := (addCommasLE (natCharsLE (mag / 10 ^ d)) 0).reverse
  (if x < 0 then ['-'] else []) ++ intChars ++ fracChars d (mag % 10 ^ d)

/-- `x.toFixed(d)` for a finite value (no digit grouping). -/
def toFixedChars (x : ℚ) (d : ℕ) : List Char :=
  let mag := scaledRound d x
  (if x < 0 then ['-'] else []) ++ (natCharsLE (mag / 10 ^ d)).reverse ++
    fracChars d (mag % 10 ^ d)

/-- The placeholder the dashboard renders for null metrics. -/
def placeholder : String := "—"

/-- `fmtNum` of `types.ts`: em-dash for null, else the locale-formatted
number with `decimals` fraction digits. -/
def fmtNum (val : Option ℚ) (decimals : ℕ) : String :=
  match val with
  | none => placeholder
  | some x => String.mk (localeChars x decimals)

/-- `fmtPct` of `types.ts`: em-dash for null, else `toFixed(1)` plus `%`. -/
def fmtPct (val : Option ℚ) : String :=
  match val with
  | none => placeholder
  | some x => String.mk (toFixedChars x 1 ++ ['%'])

/-- The characters a non-null `fmtNum`/`fmtPct` rendering can contain. -/
def numericChars : List Char :=
  ['0', '1', '2', '3', '4', '5', '6', '7', '8', '9', ',', '.', '-', '%']

/-! ### Concrete fixtures for counterexamples and witnesses -/

/-- A row with readiness 1. -/
def cexLogOne : DailyLog := { mkLog "2026-02-02" with Readiness_Score := some 1 }

/-- A row with readiness 2. -/
def cexLogTwo : DailyLog := { mkLog "2026-02-03" with Readiness_Score := some 2 }

/-- The spec's example week: readiness `[70, null, 0, 90]`, remaining days
unset. -/
def exampleWeek : List DailyLog :=
  [{ mkLog "2026-02-02" with Readiness_Score := some 70 },
   mkLog "2026-02-03",
   { mkLog "2026-02-04" with Readiness_Score := some 0 },
   { mkLog "2026-02-05" with Readiness_Score := some 90 },
   mkLog "2026-02-06", mkLog "2026-02-07", mkLog "2026-02-08"]

/-- Two in-range rows stored in descending date order, to exercise the
route filter's ordering behaviour. -/
def cexStorage : List DailyLog := [mkLog "2026-02-10", mkLog "2026-02-09"]

/-- A weekly summary lying entirely after February 2026. -/
def cexMarchWeek : WeeklySummary := mkWS "2026-03-02" "2026-03-08"

/-- An unsorted two-row store for the reconciler examples. -/
def cexStore : Store :=
  [("2026-02-10", emptyRec), ("2026-02-09", emptyRec)]

/-- The store produced by one wearable reconcile of 8000 steps into an empty
store, spelled out for the source-isolation witness. -/
def cexStoreAfterSteps : Store :=
  setRecord [] "2026-02-09" (applyFields emptyRec [(.Steps, some 8000)])

/-! ## Theorems

First the shared helper lemmas about the string order, the list pipelines and
the reconciler's store, then one theorem per claim (with its witness or
counterexample where required). -/

theorem charListLt_irrefl : ∀ as, charListLt as as = false := by
  intro as
  induction as with
  | nil => rfl
  | cons a as ih => simp [charListLt, ih]

theorem charListLt_trans : ∀ as bs cs, charListLt as bs = true →
    charListLt bs cs = true → charListLt as cs = true := by
  intro as
  induction as with
  | nil =>
    intro bs cs hab hbc
    cases bs with
    | nil => exact absurd hab (by simp [charListLt])
    | cons b bs =>
      cases cs with
      | nil => exact absurd hbc (by simp [charListLt])
      | cons c cs => simp [charListLt]
  | cons a as ih =>
    intro bs cs hab hbc
    cases bs with
    | nil => exact absurd hab (by simp [charListLt])
    | cons b bs =>
      cases cs with
      | nil => exact absurd hbc (by simp [charListLt])
      | cons c cs =>
        simp only [charListLt] at hab hbc ⊢
        rcases lt_trichotomy a b with h1 | h1 | h1
        · rcases lt_trichotomy b c with h2 | h2 | h2
          · simp [lt_trans h1 h2]
          · subst h2; simp [h1]
          · simp [h2, not_lt_of_lt h2] at hbc
        · subst h1
          rcases lt_trichotomy a c with h2 | h2 | h2
          · simp [h2]
          · subst h2
            simp [lt_irrefl] at hab hbc ⊢
            exact ih _ _ hab hbc
          · simp [h2, not_lt_of_lt h2] at hbc
        · simp [h1, not_lt_of_lt h1] at hab

theorem charListLt_total : ∀ as bs,
    charListLt as bs = true ∨ as = bs ∨ charListLt bs as = true := by
  intro as
  induction as with
  | nil =>
    intro bs
    cases bs with
    | nil => exact Or.inr (Or.inl rfl)
    | cons b bs => exact Or.inl (by simp [charListLt])
  | cons a as ih =>
    intro bs
    cases bs with
    | nil => exact Or.inr (Or.inr (by simp [charListLt]))
    | cons b bs =>
      rcases lt_trichotomy a b with h | h | h
      · exact Or.inl (by simp [charListLt, h])
      · subst h
        rcases ih bs with h2 | h2 | h2
        · exact Or.inl (by simp [charListLt, h2])
        · exact Or.inr (Or.inl (by rw [h2]))
        · exact Or.inr (Or.inr (by simp [charListLt, h2]))
      · exact Or.inr (Or.inr (by simp [charListLt, h]))

theorem charListLt_asymm {as bs : List Char} (h : charListLt as bs = true) :
    charListLt bs as = false := by
  by_contra hc
  have h2 : charListLt bs as = true := by
    cases hx : charListLt bs as with
    | false => exact absurd hx hc
    | true => rfl
  have := charListLt_trans as bs as h h2
  rw [charListLt_irrefl] at this
  exact Bool.false_ne_true this

theorem charListLt_ne {as bs : List Char} (h : charListLt as bs = true) :
    as ≠ bs := by
  intro he
  subst he
  rw [charListLt_irrefl] at h
  exact Bool.false_ne_true h

/-- JS `a >= b` agrees with `b ≤ a` in the reflexive lexicographic order. -/
theorem strGe_eq (a b : String) : strGe a b = strLe b a := by
  rcases charListLt_total a.data b.data with h | h | h
  · have h2 := charListLt_asymm h
    have hne : (b.data == a.data) = false := by
      simp only [beq_eq_false_iff_ne, ne_eq]
      exact fun he => charListLt_ne h he.symm
    simp [strGe, strLe, h, h2, hne]
  · simp [strGe, strLe, h, charListLt_irrefl]
  · have h2 := charListLt_asymm h
    simp [strGe, strLe, h, h2]

/-- JS `a <= b` agrees with `a ≤ b` in the reflexive lexicographic order. -/
theorem strLeJS_eq (a b : String) : strLeJS a b = strLe a b := by
  rcases charListLt_total a.data b.data with h | h | h
  · have h2 := charListLt_asymm h
    simp [strLeJS, strLe, h, h2]
  · simp [strLeJS, strLe, h, charListLt_irrefl]
  · have h2 := charListLt_asymm h
    have hne : (a.data == b.data) = false := by
      simp only [beq_eq_false_iff_ne, ne_eq]
      exact fun he => charListLt_ne h he.symm
    simp [strLeJS, strLe, h, h2, hne]

theorem strLe_total (a b : String) : strLe a b = true ∨ strLe b a = true := by
  rcases charListLt_total a.data b.data with h | h | h
  · exact Or.inl (by simp [strLe, h])
  · exact Or.inl (by simp [strLe, h])
  · exact Or.inr (by simp [strLe, h])

theorem strLe_trans {a b c : String} (hab : strLe a b = true)
    (hbc : strLe b c = true) : strLe a c = true := by
  simp only [strLe, Bool.or_eq_true, beq_iff_eq] at hab hbc ⊢
  rcases hab with hab | hab
  · rcases hbc with hbc | hbc
    · exact Or.inl (charListLt_trans _ _ _ hab hbc)
    · exact Or.inl (hbc ▸ hab)
  · rcases hbc with hbc | hbc
    · exact Or.inl (hab ▸ hbc)
    · exact Or.inr (hab.trans hbc)

theorem strLt_of_ne_of_le {a b : String} (hne : a ≠ b)
    (hle : strLe a b = true) : strLt a b = true := by
  simp only [strLe, Bool.or_eq_true, beq_iff_eq] at hle
  rcases hle with h | h
  · exact h
  · exact absurd (String.ext h) hne

theorem foldl_add_eq_foldr (init : ℚ) (xs : List ℚ) :
    xs.foldl (· + ·) init = init + xs.foldr (· + ·) 0 := by
  induction xs generalizing init with
  | nil => simp
  | cons x xs ih =>
    simp only [List.foldl_cons, List.foldr_cons, ih (init + x)]
    ring

/-- `avg` computes the rounded `meanSpec`: same filtered values, same
emptiness guard, and the quotient passed through `toFixed` rounding. -/
theorem avg_eq_rounded_meanSpec (logs : List DailyLog) (field : NumField)
    (decimals : ℕ) :
    avg logs field decimals =
      (meanSpec (logs.map (fun d => getNumField d field))).map
        (jsToFixedVal decimals) := by
  simp only [avg, meanSpec]
  set xs := ((logs.map (fun d => getNumField d field)).filterMap id).filter
    (fun v => decide (v ≠ 0)) with hxs
  rcases Decidable.em (xs = []) with h | h
  · simp [h]
  · have hlen : xs.length ≠ 0 := by simpa [List.length_eq_zero] using h
    simp [h, hlen, foldl_add_eq_foldr]

theorem lookup_setRecord_self (st : Store) (d : String) (r : RecState) :
    lookupRecord (setRecord st d r) d = some r := by
  induction st with
  | nil => simp [setRecord, lookupRecord, List.find?]
  | cons p rest ih =>
    by_cases h : p.1 == d
    · simp [setRecord, lookupRecord, List.find?, h]
    · simp only [setRecord, h, Bool.false_eq_true, if_false]
      simpa [lookupRecord, List.find?, h] using ih

theorem lookup_setRecord_ne (st : Store) (d d2 : String) (r : RecState)
    (h : d2 ≠ d) : lookupRecord (setRecord st d r) d2 = lookupRecord st d2 := by
  have hdd : (d == d2) = false := by simpa using Ne.symm h
  induction st with
  | nil => simp [setRecord, lookupRecord, List.find?, hdd]
  | cons p rest ih =>
    by_cases hp : p.1 == d
    · have hp1 : p.1 = d := by simpa using hp
      simp [setRecord, lookupRecord, List.find?, hp, hp1, hdd]
    · simp only [setRecord, hp, Bool.false_eq_true, if_false]
      by_cases hp2 : p.1 == d2
      · simp [lookupRecord, List.find?, hp2]
      · simpa [lookupRecord, List.find?, hp2] using ih

theorem applyFields_eval (fields : List (NumField × Option ℚ)) (r : RecState)
    (f : NumField) :
    applyFields r fields f = (lastWrite fields f).elim (r f) some := by
  induction fields generalizing r with
  | nil => simp [applyFields, lastWrite]
  | cons fv rest ih =>
    simp only [applyFields, List.foldl_cons] at ih ⊢
    rw [ih]
    cases hlw : lastWrite rest f with
    | some x => simp [lastWrite, hlw]
    | none =>
      simp only [lastWrite, hlw, Option.elim]
      cases hv : fv.2 with
      | none =>
        simp only [updField]
        by_cases he : fv.1 = f <;> simp [he]
      | some x =>
        simp only [updField]
        by_cases he : fv.1 = f
        · simp [he]
        · have hne : f ≠ fv.1 := fun hh => he hh.symm
          simp [he, hne]

theorem lastWrite_eq_none (fields : List (NumField × Option ℚ)) (f : NumField)
    (h : f ∉ fields.map Prod.fst) : lastWrite fields f = none := by
  induction fields with
  | nil => rfl
  | cons fv rest ih =>
    simp only [List.map_cons, List.mem_cons] at h
    push_neg at h
    rw [lastWrite, ih h.2]
    simp [Ne.symm h.1]

theorem applyFields_idem (r : RecState) (fs : List (NumField × Option ℚ)) :
    applyFields (applyFields r fs) fs = applyFields r fs := by
  funext f
  rw [applyFields_eval, applyFields_eval]
  cases lastWrite fs f <;> rfl

/-- Successful `reconcile` calls are exactly characterised: the date is
valid, every supplied field is owned by the calling group, and the new store
is the old one with the merged record written at `d`. -/
theorem reconcile_ok_inv {st : Store} {d : String} {g : SourceGroup}
    {fs : List (NumField × Option ℚ)} {st1 : Store}
    (h : reconcile st d g fs = .ok st1) :
    validDate d = true ∧ (∀ fv ∈ fs, owner fv.1 = g) ∧
      st1 = setRecord st d (applyFields ((lookupRecord st d).getD emptyRec) fs) := by
  rw [reconcile] at h
  cases hv : validDate d with
  | false => rw [hv] at h; simp at h
  | true =>
    rw [hv] at h
    simp only [Bool.true_eq_false, if_false] at h
    cases hf : fs.find? (fun fv => decide (owner fv.1 ≠ g)) with
    | some fv => rw [hf] at h; simp at h
    | none =>
      rw [hf] at h
      refine ⟨rfl, ?_, by injection h with h2; exact h2.symm⟩
      intro fv hfv
      have := List.find?_eq_none.mp hf fv hfv
      simpa using this

theorem reconcile_ok (st : Store) (d : String) (g : SourceGroup)
    (fs : List (NumField × Option ℚ)) (hd : validDate d = true)
    (hown : ∀ fv ∈ fs, owner fv.1 = g) :
    reconcile st d g fs =
      .ok (setRecord st d (applyFields ((lookupRecord st d).getD emptyRec) fs)) := by
  rw [reconcile, hd]
  simp only [Bool.true_eq_false, if_false]
  have hf : fs.find? (fun fv => decide (owner fv.1 ≠ g)) = none := by
    rw [List.find?_eq_none]
    intro fv hfv
    simp [hown fv hfv]
  rw [hf]

theorem owner_wearable_iff (f : NumField) :
    owner f = .wearable ↔ f ∈ wearableFieldList := by
  cases f <;> decide

theorem digit_mem_numericChars : ∀ m, m < 10 → Char.ofNat (48 + m) ∈ numericChars := by
  intro m hm
  interval_cases m <;> decide

theorem digitCh_mem (n : ℕ) : digitCh n ∈ numericChars :=
  digit_mem_numericChars (n % 10) (Nat.mod_lt n (by norm_num))

theorem natCharsAux_mem (fuel : ℕ) : ∀ n, ∀ c ∈ natCharsAux fuel n, c ∈ numericChars := by
  induction fuel with
  | zero => intro n c hc; simp [natCharsAux] at hc
  | succ fuel ih =>
    intro n c hc
    rw [natCharsAux] at hc
    by_cases h : n = 0
    · simp [h] at hc
    · simp only [h, if_false] at hc
      rcases List.mem_cons.mp hc with h1 | h1
      · exact h1 ▸ digitCh_mem n
      · exact ih _ _ h1

theorem natCharsLE_mem (n : ℕ) : ∀ c ∈ natCharsLE n, c ∈ numericChars := by
  intro c hc
  rw [natCharsLE] at hc
  by_cases h : n = 0
  · simp [h] at hc
    exact hc ▸ (by decide)
  · simp only [h, if_false] at hc
    exact natCharsAux_mem n n c hc

theorem addCommasLE_mem (cs : List Char) (hcs : ∀ c ∈ cs, c ∈ numericChars) :
    ∀ i, ∀ c ∈ addCommasLE cs i, c ∈ numericChars := by
  induction cs with
  | nil => intro i c hc; simp [addCommasLE] at hc
  | cons a rest ih =>
    intro i c hc
    rw [addCommasLE] at hc
    have ha : a ∈ numericChars := hcs a (by simp)
    have hrest : ∀ c ∈ rest, c ∈ numericChars := fun c hc => hcs c (by simp [hc])
    rcases List.mem_append.mp hc with h1 | h1
    · have hmem : c = ',' ∨ c = a := by
        by_cases hi : 0 < i ∧ i % 3 = 0
        · rw [if_pos hi] at h1
          simpa using h1
        · rw [if_neg hi] at h1
          exact Or.inr (by simpa using h1)
      rcases hmem with h2 | h2
      · exact h2 ▸ (by decide)
      · exact h2 ▸ ha
    · exact ih hrest (i + 1) c h1

theorem fracChars_mem (d frac : ℕ) : ∀ c ∈ fracChars d frac, c ∈ numericChars := by
  intro c hc
  rw [fracChars] at hc
  by_cases h : d = 0
  · simp [h] at hc
  · simp only [h, if_false, List.mem_cons, List.mem_append] at hc
    rcases hc with h1 | h1 | h1
    · exact h1 ▸ (by decide)
    · have : c = '0' := List.eq_of_mem_replicate h1
      exact this ▸ (by decide)
    · exact natCharsLE_mem frac c (List.mem_reverse.mp h1)

theorem localeChars_mem (x : ℚ) (d : ℕ) : ∀ c ∈ localeChars x d, c ∈ numericChars := by
  intro c hc
  rw [localeChars] at hc
  simp only [List.mem_append] at hc
  rcases hc with (h1 | h1) | h1
  · by_cases hx : x < 0
    · simp only [hx, if_true, List.mem_singleton] at h1
      exact h1 ▸ (by decide)
    · simp [hx] at h1
  · exact addCommasLE_mem _ (natCharsLE_mem _) 0 c (List.mem_reverse.mp h1)
  · exact fracChars_mem _ _ c h1

theorem toFixedChars_mem (x : ℚ) (d : ℕ) : ∀ c ∈ toFixedChars x d, c ∈ numericChars := by
  intro c hc
  rw [toFixedChars] at hc
  simp only [List.mem_append] at hc
  rcases hc with (h1 | h1) | h1
  · by_cases hx : x < 0
    · simp only [hx, if_true, List.mem_singleton] at h1
      exact h1 ▸ (by decide)
    · simp [hx] at h1
  · exact natCharsLE_mem _ c (List.mem_reverse.mp h1)
  · exact fracChars_mem _ _ c h1

theorem mk_ne_placeholder {cs : List Char} (h : ∀ c ∈ cs, c ∈ numericChars) :
    String.mk cs ≠ placeholder := by
  intro he
  have hdata : cs = ['—'] := by
    have : (String.mk cs).data = placeholder.data := by rw [he]
    simpa [placeholder] using this
  have : '—' ∈ numericChars := h '—' (by simp [hdata])
  exact absurd this (by decide)

/-- C7: for every query range that contains none of the stored records'
dates, the `/api/data` GET handler returns an empty daily-log list with a
success status (200) and no error — an empty range is not an error. -/
theorem C7_empty_range_is_success (qstart qend : Option String)
    (logs : List DailyLog) (sums : List WeeklySummary)
    (h : ∀ d ∈ logs,
      (strGe d.Date (jsOrDefault qstart "2020-01-01") &&
        strLeJS d.Date (jsOrDefault qend "2099-12-31")) = false) :
    (routeGET qstart qend (.ok (logs, sums))).status = 200 ∧
      (routeGET qstart qend (.ok (logs, sums))).dailyLogs = [] ∧
      (routeGET qstart qend (.ok (logs, sums))).error = none := by
  have hfil : filterLogs (jsOrDefault qstart "2020-01-01")
      (jsOrDefault qend "2099-12-31") logs = [] := by
    rw [filterLogs, List.filter_eq_nil_iff]
    intro d hd
    simp [h d hd]
  exact ⟨rfl, by simp [routeGET, hfil], rfl⟩

/-- Witness for C7: February rows queried with a March range — the response
is a success with an empty daily-log list. -/
theorem C7_empty_range_is_success_witness :
    (∀ d ∈ cexStorage,
      (strGe d.Date (jsOrDefault (some "2026-03-01") "2020-01-01") &&
        strLeJS d.Date (jsOrDefault (some "2026-03-31") "2099-12-31")) = false) ∧
    ((routeGET (some "2026-03-01") (some "2026-03-31")
        (.ok (cexStorage, []))).status = 200 ∧
      (routeGET (some "2026-03-01") (some "2026-03-31")
        (.ok (cexStorage, []))).dailyLogs = [] ∧
      (routeGET (some "2026-03-01") (some "2026-03-31")
        (.ok (cexStorage, []))).error = none) :=
  ⟨by decide, C7_empty_range_is_success (some "2026-03-01") (some "2026-03-31")
    cexStorage [] (by decide)⟩

/-- C8: the presentation formatters render the em-dash placeholder exactly
for null, and for every non-null value they render a string built from
numeric characters only (so never the placeholder): every numeric field is
treated as nullable at the rendering layer. -/
theorem C8_formatters_placeholder_iff_null :
    ∀ (v : Option ℚ) (d : ℕ),
      (fmtNum v d = placeholder ↔ v = none) ∧
      (fmtPct v = placeholder ↔ v = none) ∧
      (∀ x : ℚ, ((fmtNum (some x) d).data.all
        (fun c => numericChars.contains c)) = true) ∧
      (∀ x : ℚ, ((fmtPct (some x)).data.all
        (fun c => numericChars.contains c)) = true) := by
  intro v d
  have hpct : ∀ x : ℚ, ∀ c ∈ toFixedChars x 1 ++ ['%'], c ∈ numericChars := by
    intro x c hc
    rcases List.mem_append.mp hc with h1 | h1
    · exact toFixedChars_mem x 1 c h1
    · have : c = '%' := by simpa using h1
      exact this ▸ (by decide)
  refine ⟨⟨?_, ?_⟩, ⟨?_, ?_⟩, ?_, ?_⟩
  · intro h
    cases v with
    | none => rfl
    | some x => exact absurd h (mk_ne_placeholder (localeChars_mem x d))
  · intro h; subst h; rfl
  · intro h
    cases v with
    | none => rfl
    | some x => exact absurd h (mk_ne_placeholder (hpct x))
  · intro h; subst h; rfl
  · intro x
    rw [List.all_eq_true]
    intro c hc
    have hmem : c ∈ localeChars x d := by simpa [fmtNum] using hc
    simpa using localeChars_mem x d c hmem
  · intro x
    rw [List.all_eq_true]
    intro c hc
    have hmem : c ∈ toFixedChars x 1 ++ ['%'] := by simpa [fmtPct] using hc
    simpa using hpct x c hmem

/-- C9: the GET handler's weekly-summary filter keeps a summary iff
`Week_Start ≥ start` OR `Week_End ≤ end` (a disjunction, unlike the
conjunctive daily-log filter); consequently a March week is included in a
February query even though it lies entirely after the requested range. -/
theorem C9_weekly_filter_is_disjunctive :
    (∀ s e sums w, w ∈ filterSummaries s e sums ↔
      w ∈ sums ∧ (strLe s w.Week_Start = true ∨ strLe w.Week_End e = true)) ∧
    (cexMarchWeek ∈ filterSummaries "2026-02-01" "2026-02-28" [cexMarchWeek] ∧
      strLt "2026-02-28" cexMarchWeek.Week_Start = true) := by
  constructor
  · intro s e sums w
    rw [filterSummaries, List.mem_filter]
    simp [strGe_eq, strLeJS_eq]
  · exact ⟨by decide, by decide⟩

/-- C10: `avg` returns null exactly when every value of the field over the
logs is null or zero (in particular on the empty list); the division is
reached only when the filtered value list is non-empty, so `avg` never
produces a value from an empty denominator. -/
theorem C10_avg_null_iff_all_null_or_zero :
    ∀ logs field (decimals : ℕ), avg logs field decimals = none ↔
      ∀ l ∈ logs, getNumField l field = none ∨ getNumField l field = some 0 := by
  intro logs field decimals
  simp only [avg]
  constructor
  · intro h l hl
    by_cases hlen : (((logs.map (fun d => getNumField d field)).filterMap id).filter
        (fun v => decide (v ≠ 0))).length = 0
    · have hnil : ((logs.map (fun d => getNumField d field)).filterMap id).filter
          (fun v => decide (v ≠ 0)) = [] := List.length_eq_zero.mp hlen
      cases hv : getNumField l field with
      | none => exact Or.inl rfl
      | some x =>
        by_cases hx : x = 0
        · exact Or.inr (by rw [hx])
        · exfalso
          have hmem : x ∈ ((logs.map (fun d => getNumField d field)).filterMap id).filter
              (fun v => decide (v ≠ 0)) := by
            rw [List.mem_filter]
            refine ⟨List.mem_filterMap.mpr ⟨some x, ?_, rfl⟩, by simpa using hx⟩
            exact List.mem_map.mpr ⟨l, hl, hv⟩
          rw [hnil] at hmem
          exact List.not_mem_nil x hmem
    · rw [if_neg hlen] at h
      exact absurd h (by simp)
  · intro h
    have hnil : ((logs.map (fun d => getNumField d field)).filterMap id).filter
        (fun v => decide (v ≠ 0)) = [] := by
      rw [List.filter_eq_nil_iff]
      intro x hx
      rcases List.mem_filterMap.mp hx with ⟨o, ho, hid⟩
      rcases List.mem_map.mp ho with ⟨l, hl, hfl⟩
      rcases h l hl with h2 | h2
      · rw [h2] at hfl; rw [← hfl] at hid; exact absurd hid (by simp)
      · rw [h2] at hfl
        rw [← hfl] at hid
        have : x = 0 := by simpa using hid.symm
        simp [this]
    rw [hnil]
    simp

/-- Evaluate `jsToFixedVal 0` on a nonnegative value whose half-up rounding
is known. -/
theorem jsToFixedVal_zero_nonneg (x : ℚ) (n : ℤ) (hx : 0 ≤ x)
    (h1 : (n : ℚ) ≤ x + 1 / 2) (h2 : x + 1 / 2 < n + 1) :
    jsToFixedVal 0 x = n := by
  rw [jsToFixedVal, if_neg (not_lt.mpr hx), abs_of_nonneg hx, pow_zero,
    mul_one, one_mul, Int.floor_eq_iff.mpr ⟨h1, h2⟩, div_one]

/-- C1 counterexample: with stored readiness values 1 and 2, the weekly
average helper returns 2 — not the arithmetic mean 3/2 of the non-null,
non-zero values — because `avg` rounds the quotient via `toFixed`. -/
theorem C1_counterexample :
    avg [cexLogOne, cexLogTwo] .Readiness_Score 0 = some 2 ∧
      ((1 : ℚ) + 2) / 2 ≠ 2 := by
  constructor
  · have hv : (([cexLogOne, cexLogTwo].map
        (fun d => getNumField d .Readiness_Score)).filterMap id).filter
        (fun v => decide (v ≠ 0)) = [1, 2] := rfl
    simp only [avg, hv]
    norm_num
    rw [jsToFixedVal_zero_nonneg (3 / 2) 2 (by norm_num) (by norm_num)
      (by norm_num)]
    norm_num
  · norm_num

/-- C1 (amended): `avg` equals the arithmetic mean of exactly the non-null,
non-zero values — rounded half away from zero to the requested number of
decimal places — and null when no such value exists; on the spec's example
week (readiness 70, null, 0, 90, rest unset) it returns exactly 80. -/
theorem C1_weekly_avg_is_rounded_filtered_mean :
    (∀ logs field (decimals : ℕ), avg logs field decimals =
      (meanSpec (logs.map (fun d => getNumField d field))).map
        (jsToFixedVal decimals)) ∧
    avg exampleWeek .Readiness_Score 0 = some 80 := by
  refine ⟨avg_eq_rounded_meanSpec, ?_⟩
  have hv : ((exampleWeek.map
      (fun d => getNumField d .Readiness_Score)).filterMap id).filter
      (fun v => decide (v ≠ 0)) = [70, 90] := rfl
  simp only [avg, hv]
  norm_num
  rw [jsToFixedVal_zero_nonneg 80 80 (by norm_num) (by norm_num) (by norm_num)]
  norm_num

/-- C2 counterexample: two in-range rows stored in descending date order pass
the `/api/data` daily filter unchanged, so the response is not sorted
ascending by date — the route filters but never sorts. -/
theorem C2_counterexample :
    filterLogs "2026-02-01" "2026-02-28" cexStorage = cexStorage ∧
      datesStrictAsc (cexStorage.map DailyLog.Date) = false :=
  ⟨by decide, by decide⟩

/-- C2 (amended): both range reads return exactly the records whose date
lies in `[a, b]`; the spec-modelled `getRange` additionally returns them
sorted ascending by date — strictly so under the one-record-per-date
invariant — while the dashboard's `/api/data` filter preserves storage order
(it is a sublist of the stored sequence) and does not sort. -/
theorem C2_range_read_membership_and_order :
    (∀ s e logs (x : DailyLog), x ∈ filterLogs s e logs ↔
      x ∈ logs ∧ strLe s x.Date = true ∧ strLe x.Date e = true) ∧
    (∀ s e logs, (filterLogs s e logs).Sublist logs) ∧
    (∀ (st : Store) a b (p : String × RecState), p ∈ getRange st a b ↔
      p ∈ st ∧ strLe a p.1 = true ∧ strLe p.1 b = true) ∧
    (∀ (st : Store) a b, (getRange st a b).Pairwise rowLe) ∧
    (∀ (st : Store) a b, (st.map Prod.fst).Nodup →
      (getRange st a b).Pairwise rowLt) := by
  haveI htot : IsTotal (String × RecState) rowLe := ⟨fun p q => strLe_total p.1 q.1⟩
  haveI htr : IsTrans (String × RecState) rowLe :=
    ⟨fun _ _ _ h1 h2 => strLe_trans h1 h2⟩
  have hsorted : ∀ (st : Store) a b, (getRange st a b).Pairwise rowLe :=
    fun st a b => List.sorted_insertionSort rowLe _
  refine ⟨?_, ?_, ?_, hsorted, ?_⟩
  · intro s e logs x
    rw [filterLogs, List.mem_filter]
    simp [strGe_eq, strLeJS_eq, and_assoc]
  · intro s e logs
    exact List.filter_sublist logs
  · intro st a b p
    rw [getRange, List.mem_insertionSort, List.mem_filter]
    simp [and_assoc]
  · intro st a b hnd
    have hperm : List.Perm (getRange st a b)
        (st.filter (fun p => strLe a p.1 && strLe p.1 b)) :=
      List.perm_insertionSort rowLe _
    have hnd2 : ((st.filter (fun p => strLe a p.1 && strLe p.1 b)).map
        Prod.fst).Nodup :=
      hnd.sublist ((List.filter_sublist st).map Prod.fst)
    have hnd3 : ((getRange st a b).map Prod.fst).Nodup :=
      ((hperm.map Prod.fst).nodup_iff).mpr hnd2
    have hne : (getRange st a b).Pairwise (fun p q => p.1 ≠ q.1) :=
      List.pairwise_map.mp hnd3
    exact ((hsorted st a b).and hne).imp
      (fun h => strLt_of_ne_of_le h.2 h.1)

/-- Witness for C2 (amended): on a concrete two-row store with distinct
dates stored in descending order, `getRange` returns the rows sorted
strictly ascending by date. -/
theorem C2_range_read_membership_and_order_witness :
    (cexStore.map Prod.fst).Nodup ∧
      (getRange cexStore "2026-02-01" "2026-02-28").Pairwise rowLt :=
  ⟨by decide, C2_range_read_membership_and_order.2.2.2.2 cexStore
    "2026-02-01" "2026-02-28" (by decide)⟩

/-- C3: an incoming non-null value always overwrites the stored value, and a
subsequent incoming null for the same field never clears it — the stored
value survives the null. -/
theorem C3_null_preservation (st : Store) (d : String) (g : SourceGroup)
    (f : NumField) (v : ℚ) (hd : validDate d = true) (hf : owner f = g) :
    ∃ st1 st2, reconcile st d g [(f, some v)] = .ok st1 ∧
      storedValue st1 d f = some v ∧
      reconcile st1 d g [(f, none)] = .ok st2 ∧
      storedValue st2 d f = some v := by
  have hown1 : ∀ fv ∈ [(f, some v)], owner fv.1 = g := by
    intro fv hfv
    have : fv = (f, some v) := by simpa using hfv
    rw [this]; exact hf
  have hown2 : ∀ fv ∈ [(f, (none : Option ℚ))], owner fv.1 = g := by
    intro fv hfv
    have : fv = (f, none) := by simpa using hfv
    rw [this]; exact hf
  have hok1 := reconcile_ok st d g [(f, some v)] hd hown1
  set cur := (lookupRecord st d).getD emptyRec with hcur
  set r1 := applyFields cur [(f, some v)] with hr1
  have hl1 : lookupRecord (setRecord st d r1) d = some r1 :=
    lookup_setRecord_self st d r1
  have hval1 : r1 f = some v := by
    rw [hr1, applyFields_eval]
    simp [lastWrite]
  have hok2 := reconcile_ok (setRecord st d r1) d g [(f, none)] hd hown2
  rw [hl1] at hok2
  have happ2 : applyFields ((some r1).getD emptyRec) [(f, (none : Option ℚ))] = r1 := rfl
  rw [happ2] at hok2
  refine ⟨setRecord st d r1, setRecord (setRecord st d r1) d r1, hok1, ?_, hok2, ?_⟩
  · simp [storedValue, hl1, hval1]
  · simp [storedValue, lookup_setRecord_self, hval1]

/-- Witness for C3: storing 8000 steps (wearable group) and then receiving a
null for steps leaves 8000 stored. -/
theorem C3_null_preservation_witness :
    validDate "2026-02-09" = true ∧ owner NumField.Steps = SourceGroup.wearable ∧
    (∃ st1 st2, reconcile [] "2026-02-09" SourceGroup.wearable
        [(NumField.Steps, some 8000)] = .ok st1 ∧
      storedValue st1 "2026-02-09" NumField.Steps = some 8000 ∧
      reconcile st1 "2026-02-09" SourceGroup.wearable
        [(NumField.Steps, none)] = .ok st2 ∧
      storedValue st2 "2026-02-09" NumField.Steps = some 8000) :=
  ⟨by decide, rfl,
    C3_null_preservation [] "2026-02-09" SourceGroup.wearable NumField.Steps
      8000 (by decide) rfl⟩

/-- C4: applying `reconcile` twice with identical arguments yields the same
stored record for the date as applying it once, and replaying the entry
through `reconcileBatch` lands on that same record. -/
theorem C4_idempotence (st : Store) (d : String) (g : SourceGroup)
    (fs : List (NumField × Option ℚ)) (hd : validDate d = true)
    (hown : ∀ fv ∈ fs, owner fv.1 = g) :
    ∃ st1 st2, reconcile st d g fs = .ok st1 ∧ reconcile st1 d g fs = .ok st2 ∧
      lookupRecord st2 d = lookupRecord st1 d ∧
      reconcileBatch st [⟨d, g, fs⟩, ⟨d, g, fs⟩] = .ok st2 := by
  set cur := (lookupRecord st d).getD emptyRec with hcur
  set r1 := applyFields cur fs with hr1
  have hok1 := reconcile_ok st d g fs hd hown
  have hl1 : lookupRecord (setRecord st d r1) d = some r1 :=
    lookup_setRecord_self st d r1
  have hok2 := reconcile_ok (setRecord st d r1) d g fs hd hown
  rw [hl1] at hok2
  have happ : applyFields ((some r1).getD emptyRec) fs = r1 := by
    rw [Option.getD_some, hr1]
    exact applyFields_idem cur fs
  rw [happ] at hok2
  refine ⟨setRecord st d r1, setRecord (setRecord st d r1) d r1, hok1, hok2,
    ?_, ?_⟩
  · rw [lookup_setRecord_self, hl1]
  · rw [reconcileBatch]
    simp only [hok1]
    rw [reconcileBatch]
    simp only [hok2]
    rw [reconcileBatch]

/-- Witness for C4: a nutrition entry (2100 calories and a null weight)
applied twice, directly and as a duplicated batch. -/
theorem C4_idempotence_witness :
    validDate "2026-02-09" = true ∧
    (∀ fv ∈ [(NumField.Calories, some (2100 : ℚ)), (NumField.Weight_kg, none)],
      owner fv.1 = SourceGroup.nutrition) ∧
    (∃ st1 st2, reconcile [] "2026-02-09" SourceGroup.nutrition
        [(NumField.Calories, some 2100), (NumField.Weight_kg, none)] = .ok st1 ∧
      reconcile st1 "2026-02-09" SourceGroup.nutrition
        [(NumField.Calories, some 2100), (NumField.Weight_kg, none)] = .ok st2 ∧
      lookupRecord st2 "2026-02-09" = lookupRecord st1 "2026-02-09" ∧
      reconcileBatch []
        [⟨"2026-02-09", SourceGroup.nutrition,
          [(NumField.Calories, some 2100), (NumField.Weight_kg, none)]⟩,
         ⟨"2026-02-09", SourceGroup.nutrition,
          [(NumField.Calories, some 2100), (NumField.Weight_kg, none)]⟩] = .ok st2) :=
  ⟨by decide, by decide,
    C4_idempotence [] "2026-02-09" SourceGroup.nutrition
      [(NumField.Calories, some 2100), (NumField.Weight_kg, none)]
      (by decide) (by decide)⟩

/-- C5: a successful `reconcile` call leaves every field of the other source
group unchanged, leaves every field absent from the supplied mapping
unchanged, and touches no other date. -/
theorem C5_source_isolation (st : Store) (d : String) (g : SourceGroup)
    (fs : List (NumField × Option ℚ)) (st1 : Store)
    (h : reconcile st d g fs = .ok st1) :
    (∀ f, owner f ≠ g → storedValue st1 d f = storedValue st d f) ∧
      (∀ f, f ∉ fs.map Prod.fst → storedValue st1 d f = storedValue st d f) ∧
      (∀ d2, d2 ≠ d → lookupRecord st1 d2 = lookupRecord st d2) := by
  obtain ⟨hdv, hown, hst⟩ := reconcile_ok_inv h
  subst hst
  have huntouched : ∀ f, f ∉ fs.map Prod.fst →
      storedValue (setRecord st d
        (applyFields ((lookupRecord st d).getD emptyRec) fs)) d f =
        storedValue st d f := by
    intro f hf
    have hsv : storedValue (setRecord st d
        (applyFields ((lookupRecord st d).getD emptyRec) fs)) d f =
        applyFields ((lookupRecord st d).getD emptyRec) fs f := by
      simp [storedValue, lookup_setRecord_self]
    rw [hsv, applyFields_eval, lastWrite_eq_none fs f hf]
    cases hl : lookupRecord st d with
    | some r => simp [storedValue, hl]
    | none => simp [storedValue, hl, emptyRec]
  refine ⟨?_, huntouched, ?_⟩
  · intro f hfg
    apply huntouched
    intro hmem
    rcases List.mem_map.mp hmem with ⟨fv, hfv, hfst⟩
    exact hfg (hfst ▸ hown fv hfv)
  · intro d2 hne
    exact lookup_setRecord_ne st d d2 _ hne

/-- Witness for C5: after a wearable write of 8000 steps into an empty
store, the nutrition-group field `Calories` of that date is unchanged. -/
theorem C5_source_isolation_witness :
    reconcile [] "2026-02-09" SourceGroup.wearable
      [(NumField.Steps, some 8000)] = .ok cexStoreAfterSteps ∧
    storedValue cexStoreAfterSteps "2026-02-09" NumField.Calories =
      storedValue [] "2026-02-09" NumField.Calories :=
  ⟨rfl, (C5_source_isolation [] "2026-02-09" SourceGroup.wearable
      [(NumField.Steps, some 8000)] cexStoreAfterSteps rfl).1
    NumField.Calories (by decide)⟩

/-- C6: `nutrition_logged` holds exactly when stored calories are non-null,
and `data_complete` holds exactly when `nutrition_logged` holds and at least
one wearable-group field is non-null. -/
theorem C6_derived_fields (r : RecState) :
    (nutritionLogged r = true ↔ r .Calories ≠ none) ∧
      (dataComplete r = true ↔ (nutritionLogged r = true ∧
        ∃ f, owner f = .wearable ∧ r f ≠ none)) := by
  constructor
  · rw [nutritionLogged]
    cases hc : r .Calories <;> simp [hc]
  · rw [dataComplete, Bool.and_eq_true, List.any_eq_true]
    constructor
    · rintro ⟨h1, f, hf, hsome⟩
      refine ⟨h1, f, (owner_wearable_iff f).mpr hf, ?_⟩
      cases hr : r f
      · rw [hr] at hsome; exact absurd hsome (by simp)
      · simp [hr]
    · rintro ⟨h1, f, hf, hne⟩
      refine ⟨h1, f, (owner_wearable_iff f).mp hf, ?_⟩
      cases hr : r f
      · exact absurd hr hne
      · simp [hr]

end HealthDash
